import Mathlib

/-!
A shallow embedding of the incremental patch-export tool `git-dump-commit.py`
(file name sanitization, version classification, persisted dump state,
sync planning, and the dump/metadata batch loop), together with theorems
about resumption, recovery, idempotence, atomicity, naming and ordering.

The file system relevant to one dump target is modelled explicitly: the
target directory listing (file name together with the commit identifier
recoverable from the file's first line), the `.gitdump` metadata store with
its `DUMP_HEAD` and `LATEST_TAG` files.  External `git` invocations are
modelled as an oracle `render : CommitId → Option String` returning the
subject line of a commit, `none` standing for a failing invocation.
-/

namespace GitDumpCommit

/-- Commit identifiers are opaque strings compared by equality
(the Python code keeps them as `bytes`). -/
abbrev CommitId := String

/-- The destination directory constant `DEST_DIR = "DUMP-COMMIT"`. -/
def DEST_DIR : String := "DUMP-COMMIT"

/-! ### NameSanitizer: the five regular expressions of `DumpGenerator` -/

/-- Membership in the character class `[-a-z.A-Z_0-9]`, the complement of
`pattern[1] = re.compile(r'[^-a-z.A-Z_0-9]')`. -/
def allowedChar (c : Char) : Bool :=
  decide (c = '-' ∨ ('a' ≤ c ∧ c ≤ 'z') ∨ c = '.' ∨ ('A' ≤ c ∧ c ≤ 'Z') ∨
    c = '_' ∨ ('0' ≤ c ∧ c ≤ '9'))

/-- `pattern[1].sub('-', ·)` acting on one character: every character outside
`[-a-z.A-Z_0-9]` becomes a hyphen. -/
def sanitizeChar (c : Char) : Char := if allowedChar c then c else '-'

/-- `pattern[0].sub('', ·)` for `pattern[0] = re.compile(r'^\[PATCH[^]]*\]')`:
remove a leading `[PATCH`, any characters other than `]`, and the first `]`.
If the string does not start with `[PATCH`, or no `]` follows, nothing
is removed. -/
def stripPatch (l : List Char) : List Char :=
  if l.take 6 = ['[', 'P', 'A', 'T', 'C', 'H'] then
    match (l.drop 6).dropWhile (fun c => c ≠ ']') with
    | [] => l
    | _ :: rest => rest
  else l

/-- Fuel-driven worker for the `...` collapse; the fuel is instantiated
with the list length, which suffices since each step consumes at least one
character. -/
def collapseEllipsisAux : Nat → List Char → List Char
  | 0, l => l
  | _ + 1, [] => []
  | fuel + 1, a :: rest =>
    if a = '.' ∧ rest.take 2 = ['.', '.'] then
      '.' :: collapseEllipsisAux fuel (rest.drop 2)
    else a :: collapseEllipsisAux fuel rest

/-- `pattern[2].sub('.', ·)` for `pattern[2] = re.compile(r'\.\.\.')`:
each non-overlapping literal `...` becomes a single period, scanning left
to right. -/
def collapseEllipsis (l : List Char) : List Char := collapseEllipsisAux l.length l

/-- Drop one leading hyphen, the effect of the `^-` alternative of
`pattern[3]`. -/
def dropLeadHyphen (l : List Char) : List Char :=
  match l with
  | '-' :: rest => rest
  | _ => l

/-- `pattern[3].sub('', ·)` for `pattern[3] = re.compile(r'\.*$|^-|-$')`.
A single left-to-right pass of `re.sub` removes: the whole string when it
consists only of periods (the `\.*$` branch matches at position 0); else one
leading hyphen (`^-`), and after that either the maximal trailing run of
periods (`\.*$`) or, when the last character is a hyphen, that hyphen
(`-$`). -/
def stripEdges (l : List Char) : List Char :=
  if l.all (fun c => c == '.') then []
  else
    match (dropLeadHyphen l).getLast? with
    | some '.' => ((dropLeadHyphen l).reverse.dropWhile (fun c => c == '.')).reverse
    | some '-' => (dropLeadHyphen l).dropLast
    | _ => dropLeadHyphen l

/-- Worker for `pattern[4].sub('-', ·)`; the flag records whether the
previous emitted character belonged to a hyphen run. -/
def collapseHyphensAux : Bool → List Char → List Char
  | _, [] => []
  | prev, c :: rest =>
    if c = '-' then
      if prev then collapseHyphensAux true rest
      else '-' :: collapseHyphensAux true rest
    else c :: collapseHyphensAux false rest

/-- `pattern[4].sub('-', ·)` for `pattern[4] = re.compile(r'--*')`: every
maximal run of hyphens becomes a single hyphen. -/
def collapseHyphens (l : List Char) : List Char := collapseHyphensAux false l

/-- The full sanitization pipeline applied to a subject line, i.e. the five
`self.pattern[i].sub` lines of `DumpGenerator.dump`. -/
def sanitizeSubject (s : String) : String :=
  (collapseHyphens (stripEdges (collapseEllipsis
    ((stripPatch s.data).map sanitizeChar)))).asString

/-! ### Decimal rendering and the `"%0<digit>d-%s.patch"` template -/

/-- Fuel-driven base-10 digit list (most significant first); the fuel is
always instantiated with the number itself, which suffices. -/
def digitsAux : Nat → Nat → List Nat
  | 0, n => [n]
  | fuel + 1, n => if n < 10 then [n] else digitsAux fuel (n / 10) ++ [n % 10]

/-- Base-10 digits of a natural number, most significant first. -/
def natDigits (n : Nat) : List Nat := digitsAux n n

/-- The character of a decimal digit. -/
def digitChar (d : Nat) : Char := Char.ofNat (48 + d)

/-- Decimal rendering of a natural number, Python's `str(n)` / `"%d" % n`. -/
def natDecimal (n : Nat) : String := ((natDigits n).map digitChar).asString

/-- Zero padding to width `w`, as performed by Python's `"%0wd"` format
(no truncation when the rendering is already longer). -/
def zeroPad (w : Nat) (s : String) : String :=
  (List.replicate (w - s.length) '0').asString ++ s

/-- `template % (offset, name)` for `template = "%0" + str(digit) + "d-%s.patch"`. -/
def mkRawName (digit offsetV : Nat) (s : String) : String :=
  zeroPad digit (natDecimal offsetV) ++ "-" ++ s ++ ".patch"

/-- Python slicing `s[:i]`, including the negative-index convention. -/
def pySliceTo (s : String) (i : Int) : String :=
  if 0 ≤ i then (s.data.take i.toNat).asString
  else (s.data.take (s.length - (-i).toNat)).asString

/-- The file name produced by `DumpGenerator.dump` for one commit: sanitize
the subject, apply the numbered template, then
`if len(name) > pc_name_max: name = name[:pc_name_max - 6] + ".patch"`. -/
def formatName (digit offsetV : Nat) (subject : String) (pcMax : Nat) : String :=
  let name := mkRawName digit offsetV (sanitizeSubject subject)
  if pcMax < name.length then pySliceTo name ((pcMax : Int) - 6) ++ ".patch"
  else name

/-- The digit width set by `DumpGenerator.config`:
`if patchnum < 1000: patchnum = 1000; self.digit = len(str(patchnum))`. -/
def configDigit (patchnum : Nat) : Nat :=
  (natDecimal (if patchnum < 1000 then 1000 else patchnum)).length

/-- Proof-side zero-padded digit vector of fixed width `w` (most significant
first); meaningful for `n < 10 ^ w`. -/
def padDig : Nat → Nat → List Nat
  | 0, _ => []
  | w + 1, n => n / 10 ^ w :: padDig w (n % 10 ^ w)

/-! ### VersionClassifier: the tag classification of `_setup_dump_dir` -/

/-- Boolean prefix test on character lists. -/
def isPrefixL : List Char → List Char → Bool
  | [], _ => true
  | _ :: _, [] => false
  | a :: as, b :: bs => a == b && isPrefixL as bs

/-- Python's `pat in s` substring test. -/
def containsSub (pat : List Char) : List Char → Bool
  | [] => pat.isEmpty
  | c :: rest => isPrefixL pat (c :: rest) || containsSub pat rest

/-- The part of a string before the first occurrence of `pat`, i.e.
Python's `s.split(pat)[0]`; the whole string when `pat` does not occur. -/
def beforeFirst (pat : List Char) : List Char → List Char
  | [] => []
  | c :: rest => if isPrefixL pat (c :: rest) then [] else c :: beforeFirst pat rest

/-- Python's `s.split(None)[0]`: drop leading whitespace and take the first
whitespace-delimited token; `none` when the string has no token (in which
case the Python indexing `[0]` raises `IndexError`). -/
def splitNoneHead (l : List Char) : Option (List Char) :=
  let t := l.dropWhile (fun c => c.isWhitespace)
  if t.isEmpty then none else some (t.takeWhile (fun c => !c.isWhitespace))

/-- The classification fragment of `_setup_dump_dir` (lines 246-257): search
the lowercased tag for the markers `rc`, `pre`, `beta` in that preference
order (lowercasing is per character, which agrees with Python's
`str.lower` on ASCII tag names); `version` is the lowercased tag up to the
first marker occurrence (or its first whitespace token when no marker is
found), with one trailing
`-`, `_` or `.` stripped.  Returns `(version ≠ tag, version)`; `none` models
the `IndexError` raised by `version[-1]` when `version` is empty (and by
`split(None)[0]` on an empty tag). -/
def classifyTag (tag : String) : Option (Bool × String) :=
  let low := tag.data.map Char.toLower
  let version? : Option (List Char) :=
    if containsSub ['r', 'c'] low then some (beforeFirst ['r', 'c'] low)
    else if containsSub ['p', 'r', 'e'] low then some (beforeFirst ['p', 'r', 'e'] low)
    else if containsSub ['b', 'e', 't', 'a'] low then some (beforeFirst ['b', 'e', 't', 'a'] low)
    else splitNoneHead low
  match version? with
  | none => none
  | some v =>
    match v.getLast? with
    | none => none
    | some c =>
      let v2 := if c = '-' ∨ c = '_' ∨ c = '.' then v.dropLast else v
      some (decide (v2.asString ≠ tag), v2.asString)

/-- The output directory chosen by `_setup_dump_dir`: `HEAD` maps to the
fixed top-level directory; otherwise a nested `DEST/version/tag` directory
when `version != tag`, else the flat `DEST/version` directory. -/
def setupOutdir (tag : String) : Option String :=
  if tag = "HEAD" then some (DEST_DIR ++ "/" ++ tag)
  else
    (classifyTag tag).map (fun p =>
      if p.1 then DEST_DIR ++ "/" ++ p.2 ++ "/" ++ tag
      else DEST_DIR ++ "/" ++ p.2)

/-! ### DumpState: the on-disk state of one target -/

/-- The `.gitdump` metadata store: the parsed `DUMP_HEAD` file
(`"<commitID>\t<offset>\n"`) and the `LATEST_TAG` file; `none` means the
file does not exist. -/
structure GitdumpMeta where
  dumpHead : Option (CommitId × Nat)
  latestTagFile : Option String
deriving DecidableEq, Repr

/-- The file system state relevant to one dump target: the target directory
listing (`none` when the directory does not exist; each entry is a file name
together with the commit identifier encoded in the file's first line), and
the `.gitdump` store (`none` when that directory does not exist). -/
structure FS where
  headDir : Option (List (String × CommitId))
  gitdump : Option GitdumpMeta
deriving DecidableEq, Repr

/-- `_init_meta_dir`: remove the target directory and the whole `.gitdump`
store and recreate both empty. -/
def initMeta (_fs : FS) : FS :=
  { headDir := some [], gitdump := some { dumpHead := none, latestTagFile := none } }

/-! ### SyncPlanner: `_fast_forward_commit_list` and its caller -/

/-- One `fnmatch` pattern `'0'*i + str(offset) + '-*'` of the marker-file
scan: the name must start with `i` zeros, the decimal offset, and a
hyphen. -/
def markerMatches (i offsetV : Nat) (name : String) : Bool :=
  (List.replicate i '0' ++ (natDecimal offsetV).data ++ ['-']).isPrefixOf name.data

/-- The marker-file scan of `_fast_forward_commit_list`: for `i` in `0..4`
filter the directory listing with `'0'*i + str(offset) + '-*'`; take the
first file of the first non-empty filter result. -/
def markerScan (files : List (String × CommitId)) (offsetV : Nat) :
    Option (String × CommitId) :=
  (((List.range 5).map (fun i => files.filter (fun f => markerMatches i offsetV f.1))).find?
    (fun l => !l.isEmpty)).bind List.head?

/-- `_fast_forward_commit_list`.  The second component is `none` when the
Python function raises (`OSError` or `ValueError`); the first component is
the file system after the call, recording whether `_init_meta_dir` ran.
On success the result is the remaining commit list and the next offset
(`none` standing for Python's `None`). -/
def fastForwardCommitList (fs : FS) (commitList : List CommitId) :
    FS × Option (List CommitId × Option Nat) :=
  match fs.headDir, fs.gitdump with
  | some files, some meta =>
    match meta.dumpHead with
    | none => (initMeta fs, none)
    | some (lastCommit, offsetV) =>
      match markerScan files offsetV with
      | none => (initMeta fs, none)
      | some fileEntry =>
        if fileEntry.2 ≠ lastCommit then (fs, none)
        else if offsetV ≠ commitList.length then (initMeta fs, none)
        else
          match commitList.indexOf? lastCommit with
          | none => (fs, none)
          | some idx =>
            if offsetV = commitList.length then (fs, some ([], none))
            else (fs, some (commitList.drop (idx + 1), some (offsetV + 1)))
  | _, _ => (initMeta fs, none)

/-- The planning step as performed by the callers (`_dump_in_lump`,
`_dump_per_tag`): call `_fast_forward_commit_list`; on an exception keep the
full commit list and the configured offset 1; on success take the returned
list, and the returned offset when it is truthy. -/
def planLump (fs : FS) (commitList : List CommitId) : FS × List CommitId × Nat :=
  match fastForwardCommitList fs commitList with
  | (fs2, none) => (fs2, commitList, 1)
  | (fs2, some (cl2, offset?)) =>
    (fs2, cl2,
      match offset? with
      | some o => if o = 0 then 1 else o
      | none => 1)

/-! ### DumpGenerator: the dump loop and metadata write -/

/-- The mutable fields of `DumpGenerator` used by the dump loop. -/
structure Gen where
  digit : Nat
  offsetV : Nat
  latestCommitId : Option CommitId
  latestTagVal : Option String
deriving DecidableEq, Repr

/-- Writing one patch file: an existing file of the same name is
overwritten in place, otherwise the file is appended to the listing. -/
def addFile (files : List (String × CommitId)) (name : String) (c : CommitId) :
    List (String × CommitId) :=
  if files.any (fun f => f.1 == name) then
    files.map (fun f => if f.1 == name then (name, c) else f)
  else files ++ [(name, c)]

/-- `addFile` lifted to the file system (the target directory). -/
def fsAddFile (fs : FS) (name : String) (c : CommitId) : FS :=
  { fs with headDir := fs.headDir.map (fun files => addFile files name c) }

/-- The `for commit_id in commit_list` loop of `DumpGenerator.dump`: render
each commit (a failing `git show` exits the process, modelled by `none` in
the second component), write the formatted patch file, increment the
offset. -/
def dumpLoop (render : CommitId → Option String) (pcMax : Nat) :
    Gen → FS → List CommitId → FS × Option Gen
  | g, fs, [] => (fs, some g)
  | g, fs, c :: rest =>
    match render c with
    | none => (fs, none)
    | some subject =>
      dumpLoop render pcMax { g with offsetV := g.offsetV + 1 }
        (fsAddFile fs (formatName g.digit g.offsetV subject pcMax) c) rest

/-- `DumpGenerator.write_metadata`: rewrite `DUMP_HEAD` when a commit was
dumped (`latest_commit_id != b''`), rewrite `LATEST_TAG` when a tag is
tracked (`latest_tag != ''`). -/
def writeMetadata (g : Gen) (fs : FS) : FS :=
  let fs1 :=
    match g.latestCommitId with
    | some cid =>
      { fs with gitdump :=
          fs.gitdump.map (fun m => { m with dumpHead := some (cid, g.offsetV - 1) }) }
    | none => fs
  match g.latestTagVal with
  | some t =>
    { fs1 with gitdump := fs1.gitdump.map (fun m => { m with latestTagFile := some t }) }
  | none => fs1

/-- One dump batch followed by the metadata write, the
`dump_generator.dump(commit_list); dump_generator.write_metadata()` sequence.
After the loop `latest_commit_id` is the last commit iterated (the loop is
only ever invoked on non-empty lists by the callers).  A failing render
aborts before any metadata write; the second component is then `none`. -/
def runBatch (g : Gen) (fs : FS) (render : CommitId → Option String) (pcMax : Nat)
    (commitList : List CommitId) : FS × Option Gen :=
  match dumpLoop render pcMax g fs commitList with
  | (fs2, none) => (fs2, none)
  | (fs2, some g2) =>
    let g3 : Gen :=
      { g2 with latestCommitId :=
          (match commitList.getLast? with
           | some c => some c
           | none => g2.latestCommitId) }
    (writeMetadata g3 fs2, some g3)

/-- The existence check of `DumpGenerator.__init__`: initialize the
metadata directory when the target directory, the `.gitdump` store or the
`DUMP_HEAD` file is missing. -/
def initIfMissing (fs : FS) : FS :=
  match fs.headDir, fs.gitdump with
  | some _, some meta =>
    match meta.dumpHead with
    | some _ => fs
    | none => initMeta fs
  | _, _ => initMeta fs

/-- `_dump_in_lump` for a fetched commit list: construct the generator
(initializing missing state), configure digit width and offset from the full
list, plan via `_fast_forward_commit_list`, then dump the remaining commits
and write metadata.  `none` models `sys.exit(1)` on a failing render. -/
def runLump (fs0 : FS) (render : CommitId → Option String) (pcMax : Nat)
    (commitList : List CommitId) : Option FS :=
  let fs1 := initIfMissing fs0
  let g0 : Gen :=
    { digit := configDigit commitList.length, offsetV := 1,
      latestCommitId := none, latestTagVal := none }
  match planLump fs1 commitList with
  | (fs2, cl, offsetV) =>
    if cl.isEmpty then some fs2
    else
      match runBatch { g0 with offsetV := offsetV } fs2 render pcMax cl with
      | (_, none) => none
      | (fs3, some _) => some fs3

/-- `DumpGenerator.check_new_tag`: when the `LATEST_TAG` file is missing or
its content differs from the tag passed in, reinitialize the target
directory and the metadata store. -/
def checkNewTag (fs : FS) (latestTag : String) : FS :=
  match fs.gitdump.bind (fun m => m.latestTagFile) with
  | none => initMeta fs
  | some current => if latestTag ≠ current then initMeta fs else fs

/-! ### Concrete states used by counterexamples and witnesses -/

/-- A target holding the dump of the commit sequence `[A, B, C]`. -/
def fsC1 : FS :=
  { headDir := some [("1-a.patch", "A"), ("2-b.patch", "B"), ("3-c.patch", "C")],
    gitdump := some { dumpHead := some ("C", 3), latestTagFile := none } }

/-- The commit list of the same range after two commits were appended. -/
def clC1 : List CommitId := ["A", "B", "C", "D", "E"]

/-- A target whose recorded commit `A` is about to vanish from the fetched
list (rebased history) while the marker file is consistent and the recorded
offset equals the new list length. -/
def fsC2 : FS :=
  { headDir := some [("1-a.patch", "A")],
    gitdump := some { dumpHead := some ("A", 1), latestTagFile := none } }

/-- The freshly fetched list for `fsC2`: commit `A` was rewritten to `B`. -/
def clC2 : List CommitId := ["B"]

/-- A consistent target for the commit sequence `[A, B, C]`, used to
exercise the planner's success path. -/
def fsConsistent : FS :=
  { headDir := some [("1-a.patch", "A"), ("2-b.patch", "B"), ("3-c.patch", "C")],
    gitdump := some { dumpHead := some ("C", 3), latestTagFile := none } }

/-- The unchanged commit list matching `fsConsistent`. -/
def clConsistent : List CommitId := ["A", "B", "C"]

/-- An empty, freshly initialized target used by the batch witnesses. -/
def fsEmpty : FS :=
  { headDir := some [], gitdump := some { dumpHead := none, latestTagFile := none } }

/-- A render oracle that fails on the commit `BAD` and otherwise yields a
fixed subject. -/
def renderW (c : CommitId) : Option String :=
  if c = "BAD" then none else some "Subject"

/-- A target with a stored `LATEST_TAG` of `v1`. -/
def fsTagged : FS :=
  { headDir := some [("1-x.patch", "X")],
    gitdump := some { dumpHead := some ("X", 1), latestTagFile := some "v1" } }

/-- A generator configured for digit width 4 at offset 1. -/
def gW : Gen :=
  { digit := 4, offsetV := 1, latestCommitId := none, latestTagVal := none }

set_option maxRecDepth 10000

/-! ### Theorems: planning, recovery, idempotence -/

/-- C1 (amended).  For the dumped sequence `[A, B, C]` extended to
`[A, B, C, D, E]` the planner does not fast-forward: the length check
`offset != len(commit_list)` reinitializes the target and raises, so the
caller redumps the full list from offset 1.  In general a successful
(non-raising) plan always returns the empty list: the suffix fast-forward
return of `_fast_forward_commit_list` is unreachable. -/
theorem c1_append_only_resumption :
    planLump fsC1 clC1 = (initMeta fsC1, clC1, 1) ∧
    ∀ fs cl fs2 r, fastForwardCommitList fs cl = (fs2, some r) → r = ([], none) := by
  constructor
  · decide
  · intro fs cl fs2 r h
    obtain ⟨hd, gd⟩ := fs
    cases hd with
    | none => simp [fastForwardCommitList] at h
    | some files =>
      cases gd with
      | none => simp [fastForwardCommitList] at h
      | some meta =>
        cases hdh : meta.dumpHead with
        | none => simp [fastForwardCommitList, hdh] at h
        | some pr =>
          obtain ⟨lastCommit, offsetV⟩ := pr
          cases hms : markerScan files offsetV with
          | none => simp [fastForwardCommitList, hdh, hms] at h
          | some fe =>
            simp only [fastForwardCommitList, hdh, hms] at h
            split at h
            · exact absurd h (by simp)
            · split at h
              · exact absurd h (by simp)
              · rename_i hne hlen
                cases hidx : cl.indexOf? lastCommit with
                | none => simp only [hidx] at h; exact absurd h (by simp)
                | some idx =>
                  simp only [hidx] at h
                  split at h
                  · injection h with h1 h2
                    injection h2 with h3
                    exact h3.symm
                  · rename_i hlen2
                    exact absurd (not_not.mp hlen) hlen2

/-- C1 witness: a consistent, unchanged target is the one situation in
which the planner succeeds, and it returns the empty list. -/
theorem c1_witness :
    fastForwardCommitList fsConsistent clConsistent = (fsConsistent, some ([], none)) ∧
    (([], none) : List CommitId × Option Nat) = ([], none) :=
  ⟨by decide,
   c1_append_only_resumption.2 fsConsistent clConsistent fsConsistent ([], none) (by decide)⟩

/-- C1 counterexample: the claim says the planner returns the suffix
`[D, E]` with start offset 4; on the code it does not. -/
theorem c1_counterexample :
    (planLump fsC1 clC1).2 ≠ ((["D", "E"] : List CommitId), 4) := by decide

/-- C2 (amended).  When the recorded commit matches no entry of the fresh
commit list, the planner makes the caller use the full list with start
offset 1; but the target directory is wiped only when the recorded offset
also differs from the list length.  When the offset equals the list length
(and the marker file is consistent), `commit_list.index` raises
`ValueError` before any `_init_meta_dir` call and all prior files
remain. -/
theorem c2_inconsistency_recovery (fs : FS) (files : List (String × CommitId))
    (meta : GitdumpMeta) (lastCommit : CommitId) (offsetV : Nat) (cl : List CommitId)
    (mname : String)
    (h1 : fs.headDir = some files) (h2 : fs.gitdump = some meta)
    (h3 : meta.dumpHead = some (lastCommit, offsetV))
    (h4 : markerScan files offsetV = some (mname, lastCommit))
    (h5 : cl.indexOf? lastCommit = none) :
    planLump fs cl = ((if offsetV = cl.length then fs else initMeta fs), cl, 1) := by
  by_cases hoff : offsetV = cl.length
  · subst hoff
    simp [planLump, fastForwardCommitList, h1, h2, h3, h4, h5]
  · simp [planLump, fastForwardCommitList, h1, h2, h3, h4, h5, hoff]

/-- C2 witness: the concrete rebased-history state, on the no-wipe
branch. -/
theorem c2_witness :
    clC2.indexOf? "A" = none ∧
    planLump fsC2 clC2 = ((if 1 = clC2.length then fsC2 else initMeta fsC2), clC2, 1) :=
  ⟨by decide,
   c2_inconsistency_recovery fsC2 [("1-a.patch", "A")]
     { dumpHead := some ("A", 1), latestTagFile := none } "A" 1 clC2 "1-a.patch"
     rfl rfl rfl (by decide) (by decide)⟩

/-- C2 counterexample: with a consistent marker and matching offset, a
recorded commit absent from the fresh list does not wipe the target: the
prior patch file is still on disk after planning, contradicting the claim
that the directory is wiped in every such state. -/
theorem c2_counterexample :
    (planLump fsC2 clC2).2 = (clC2, 1) ∧ (planLump fsC2 clC2).1 = fsC2 ∧
    fsC2.headDir = some [("1-a.patch", "A")] := by decide

/-- C3.  Over an unchanged commit list with a consistent persisted state
(marker file present and matching, recorded offset equal to the list
length, recorded commit present in the list), a second run changes
nothing: no file is written and `DUMP_HEAD` keeps its contents. -/
theorem c3_idempotence (fs : FS) (files : List (String × CommitId)) (meta : GitdumpMeta)
    (lastCommit : CommitId) (cl : List CommitId) (render : CommitId → Option String)
    (pcMax : Nat) (mname : String)
    (h1 : fs.headDir = some files) (h2 : fs.gitdump = some meta)
    (h3 : meta.dumpHead = some (lastCommit, cl.length))
    (h4 : markerScan files cl.length = some (mname, lastCommit))
    (h6 : (cl.indexOf? lastCommit).isSome) :
    runLump fs render pcMax cl = some fs := by
  obtain ⟨idx, hidx⟩ := Option.isSome_iff_exists.mp h6
  simp [runLump, initIfMissing, planLump, fastForwardCommitList, h1, h2, h3, h4, hidx]

/-- C3 witness: the consistent `[A, B, C]` target re-run over the same
list. -/
theorem c3_witness :
    markerScan [("1-a.patch", "A"), ("2-b.patch", "B"), ("3-c.patch", "C")]
      clConsistent.length = some ("3-c.patch", "C") ∧
    runLump fsConsistent (fun _ => none) 255 clConsistent = some fsConsistent :=
  ⟨by decide,
   c3_idempotence fsConsistent [("1-a.patch", "A"), ("2-b.patch", "B"), ("3-c.patch", "C")]
     { dumpHead := some ("C", 3), latestTagFile := none } "C" clConsistent
     (fun _ => none) 255 "3-c.patch" rfl rfl rfl (by decide) (by decide)⟩

/-- C10.  Whenever the stored `LATEST_TAG` is missing or differs from the
tag passed to `check_new_tag`, the target directory and the whole
`.gitdump` store are deleted and recreated empty. -/
theorem c10_new_tag_wipes_head (fs : FS) (tag : String)
    (h : fs.gitdump.bind (fun m => m.latestTagFile) ≠ some tag) :
    checkNewTag fs tag = initMeta fs ∧
    (initMeta fs).headDir = some [] ∧
    (initMeta fs).gitdump = some { dumpHead := none, latestTagFile := none } := by
  refine ⟨?_, rfl, rfl⟩
  unfold checkNewTag
  cases hcur : fs.gitdump.bind (fun m => m.latestTagFile) with
  | none => rfl
  | some cur =>
    have hne : tag ≠ cur := by
      intro he
      exact h (by rw [hcur, he])
    simp [hne]

/-- C10 witness: a target whose stored tag `v1` differs from the newly
observed tag `v2` is wiped. -/
theorem c10_witness :
    fsTagged.gitdump.bind (fun m => m.latestTagFile) ≠ some "v2" ∧
    checkNewTag fsTagged "v2" = initMeta fsTagged :=
  ⟨by decide, (c10_new_tag_wipes_head fsTagged "v2" (by decide)).1⟩

/-! ### Theorems: batch atomicity of the dump loop -/

/-- The dump loop writes patch files only: the `.gitdump` store is
untouched by the loop itself. -/
theorem dumpLoop_gitdump (render : CommitId → Option String) (pcMax : Nat) :
    ∀ (cl : List CommitId) (g : Gen) (fs : FS),
      (dumpLoop render pcMax g fs cl).1.gitdump = fs.gitdump := by
  intro cl
  induction cl with
  | nil => intro g fs; rfl
  | cons c0 rest ih =>
    intro g fs
    cases hr0 : render c0 with
    | none => simp [dumpLoop, hr0]
    | some subj =>
      simp only [dumpLoop, hr0]
      exact (ih _ _).trans rfl

/-- A failing render anywhere in the batch aborts the loop. -/
theorem dumpLoop_abort (render : CommitId → Option String) (pcMax : Nat) :
    ∀ (cl : List CommitId) (g : Gen) (fs : FS),
      (∃ c ∈ cl, render c = none) → (dumpLoop render pcMax g fs cl).2 = none := by
  intro cl
  induction cl with
  | nil =>
    rintro g fs ⟨c, hc, _⟩
    exact absurd hc (List.not_mem_nil c)
  | cons c0 rest ih =>
    rintro g fs ⟨c, hc, hrc⟩
    cases hr0 : render c0 with
    | none => simp [dumpLoop, hr0]
    | some subj =>
      simp only [dumpLoop, hr0]
      rcases List.mem_cons.mp hc with rfl | hmem
      · rw [hr0] at hrc
        exact absurd hrc (by simp)
      · exact ih _ _ ⟨c, hmem, hrc⟩

/-- When every render succeeds the loop completes, advancing the offset by
the batch length and leaving the other generator fields unchanged. -/
theorem dumpLoop_success (render : CommitId → Option String) (pcMax : Nat) :
    ∀ (cl : List CommitId) (g : Gen) (fs : FS),
      (∀ c ∈ cl, (render c).isSome) →
      ∃ fs2 g2, dumpLoop render pcMax g fs cl = (fs2, some g2) ∧
        g2.offsetV = g.offsetV + cl.length ∧
        g2.latestTagVal = g.latestTagVal ∧
        g2.latestCommitId = g.latestCommitId := by
  intro cl
  induction cl with
  | nil =>
    intro g fs _
    exact ⟨fs, g, rfl, by simp, rfl, rfl⟩
  | cons c0 rest ih =>
    intro g fs h
    obtain ⟨subj, hsubj⟩ :=
      Option.isSome_iff_exists.mp (h c0 (List.mem_cons_self c0 rest))
    obtain ⟨fs2, g2, heq, hoff, htag, hcid⟩ :=
      ih { g with offsetV := g.offsetV + 1 }
        (fsAddFile fs (formatName g.digit g.offsetV subj pcMax) c0)
        (fun c hc => h c (List.mem_cons_of_mem c0 hc))
    refine ⟨fs2, g2, ?_, ?_, htag, hcid⟩
    · simp only [dumpLoop, hsubj]
      exact heq
    · simp only at hoff
      simp [hoff, List.length_cons]
      omega

/-- C4.  State is persisted at most once per batch: a failing render aborts
the batch with `DUMP_HEAD` (and `LATEST_TAG`) untouched, and a fully
successful batch writes `DUMP_HEAD` exactly once, after all files, with the
last commit of the batch and the final offset. -/
theorem c4_batch_atomicity (render : CommitId → Option String) (pcMax : Nat) (g : Gen)
    (fs : FS) (cl : List CommitId) :
    ((∃ c ∈ cl, render c = none) →
      (runBatch g fs render pcMax cl).2 = none ∧
      (runBatch g fs render pcMax cl).1.gitdump = fs.gitdump) ∧
    (∀ lastC meta, (∀ c ∈ cl, (render c).isSome) → cl.getLast? = some lastC →
      fs.gitdump = some meta → g.latestTagVal = none →
      (runBatch g fs render pcMax cl).1.gitdump =
        some { meta with dumpHead := some (lastC, g.offsetV + cl.length - 1) } ∧
      (runBatch g fs render pcMax cl).2.isSome) := by
  constructor
  · intro hex
    have habort := dumpLoop_abort render pcMax cl g fs hex
    have hgd := dumpLoop_gitdump render pcMax cl g fs
    unfold runBatch
    cases hdl : dumpLoop render pcMax g fs cl with
    | mk fs2 og =>
      cases og with
      | none =>
        rw [hdl] at hgd
        exact ⟨rfl, hgd⟩
      | some g2 =>
        rw [hdl] at habort
        exact absurd habort (by simp)
  · intro lastC meta hall hlast hmeta htag
    obtain ⟨fs2, g2, heq, hoff, htagv, _⟩ := dumpLoop_success render pcMax cl g fs hall
    have hgd := dumpLoop_gitdump render pcMax cl g fs
    rw [heq] at hgd
    simp only [runBatch, heq, hlast]
    rw [htag] at htagv
    have hfs2 : fs2.gitdump = some meta := by simpa [hmeta] using hgd
    constructor
    · simp [writeMetadata, htagv, hoff, hfs2]
    · simp

/-- C4 witness: a batch aborted by a failing render keeps the pre-batch
metadata, and a successful two-commit batch records the last commit with
final offset 2. -/
theorem c4_witness :
    ((∃ c ∈ (["X", "BAD"] : List CommitId), renderW c = none) ∧
      (runBatch gW fsEmpty renderW 255 ["X", "BAD"]).2 = none ∧
      (runBatch gW fsEmpty renderW 255 ["X", "BAD"]).1.gitdump = fsEmpty.gitdump) ∧
    ((runBatch gW fsEmpty renderW 255 ["X", "Y"]).1.gitdump =
        some { dumpHead := some ("Y", gW.offsetV + 2 - 1), latestTagFile := none } ∧
      (runBatch gW fsEmpty renderW 255 ["X", "Y"]).2.isSome) :=
  ⟨⟨by decide, (c4_batch_atomicity renderW 255 gW fsEmpty ["X", "BAD"]).1 (by decide)⟩,
   (c4_batch_atomicity renderW 255 gW fsEmpty ["X", "Y"]).2 "Y"
     { dumpHead := none, latestTagFile := none } (by decide) (by decide) rfl rfl⟩

/-! ### Theorems: sanitization and classification -/

/-- C5.  The sanitization pipeline applied to the subject
`"[PATCH v2 3/5] Fix a weird---bug..."` with offset 7 and digit width 4
yields exactly `"0007-Fix-a-weird-bug.patch"`. -/
theorem c5_sanitization_determinism :
    mkRawName 4 7 (sanitizeSubject "[PATCH v2 3/5] Fix a weird---bug...") =
      "0007-Fix-a-weird-bug.patch" := by decide

/-- C7 (amended).  `classify("v5.10-rc3")` is pre-release with parent
`"v5.10"`, `classify("v5.10")` is stable and its own parent, and `HEAD`
maps to the fixed top-level directory.  However the parent version is
computed from the lowercased tag (`tag.lower().split(suffix)[0]`), so for
an uppercase tag the parent does not keep the original tag's characters:
`classify("V5.10-RC3")` has parent `"v5.10"`, and even the marker-free tag
`"V5.10"` differs from its lowercased parent and is therefore nested like
a pre-release. -/
theorem c7_classification :
    classifyTag "v5.10-rc3" = some (true, "v5.10") ∧
    classifyTag "v5.10" = some (false, "v5.10") ∧
    setupOutdir "HEAD" = some "DUMP-COMMIT/HEAD" ∧
    setupOutdir "v5.10-rc3" = some "DUMP-COMMIT/v5.10/v5.10-rc3" ∧
    setupOutdir "v5.10" = some "DUMP-COMMIT/v5.10" ∧
    classifyTag "V5.10-RC3" = some (true, "v5.10") ∧
    classifyTag "V5.10" = some (true, "v5.10") ∧
    classifyTag "v2.6.11-pre2" = some (true, "v2.6.11") ∧
    classifyTag "v1.0-beta3" = some (true, "v1.0") := by decide

/-- C7 counterexample: the claim says the parent keeps the original tag's
characters up to the marker, which would give `"V5.10"` for
`"V5.10-RC3"`; the code lowercases and yields `"v5.10"`. -/
theorem c7_counterexample :
    classifyTag "V5.10-RC3" ≠ some (true, "V5.10") ∧
    classifyTag "V5.10-RC3" = some (true, "v5.10") := by decide

/-- C8.  Classification is not total: for the tag `"rc1"` the truncation at
the marker start leaves an empty parent prefix and `version[-1]` raises
`IndexError` (modelled by `none`), crashing the run, while the spec's
contract promises a result for every tag. -/
theorem c8_classify_rc1_faults : classifyTag "rc1" = none := by decide

/-! ### Theorems: truncation safety of generated names -/

/-- String concatenation concatenates the underlying character lists. -/
theorem data_append (a b : String) : (a ++ b).data = a.data ++ b.data := rfl

/-- The characters of `List.asString`. -/
theorem data_asString (l : List Char) : (List.asString l).data = l := rfl

/-- The length of a concatenation of strings. -/
theorem length_append_str (a b : String) : (a ++ b).length = a.length + b.length :=
  List.length_append a.data b.data

/-- Bounded-fuel congruence for the digit computation. -/
theorem digitsAux_congr : ∀ (f1 f2 n : Nat), n ≤ f1 → n ≤ f2 →
    digitsAux f1 n = digitsAux f2 n := by
  intro f1
  induction f1 with
  | zero =>
    intro f2 n h1 h2
    have hn : n = 0 := Nat.le_zero.mp h1
    subst hn
    cases f2 with
    | zero => rfl
    | succ f2 => simp [digitsAux]
  | succ f1 ih =>
    intro f2 n h1 h2
    by_cases hn : n < 10
    · cases f2 with
      | zero =>
        have h0 : n = 0 := Nat.le_zero.mp h2
        subst h0
        simp [digitsAux]
      | succ f2 => simp [digitsAux, hn]
    · cases f2 with
      | zero =>
        have h0 : n = 0 := Nat.le_zero.mp h2
        omega
      | succ f2 =>
        simp only [digitsAux, if_neg hn]
        rw [ih f2 (n / 10) (by omega) (by omega)]

/-- The defining recurrence of `natDigits`. -/
theorem natDigits_eq (n : Nat) :
    natDigits n = if n < 10 then [n] else natDigits (n / 10) ++ [n % 10] := by
  by_cases hn : n < 10
  · rw [if_pos hn]
    unfold natDigits
    cases n with
    | zero => rfl
    | succ m => simp [digitsAux, hn]
  · rw [if_neg hn]
    unfold natDigits
    cases n with
    | zero => omega
    | succ m =>
      simp only [digitsAux, if_neg hn]
      rw [digitsAux_congr m ((m + 1) / 10) ((m + 1) / 10) (by omega) (le_refl _)]

/-- Every entry of a digit list is a digit. -/
theorem natDigits_lt_ten : ∀ (n d : Nat), d ∈ natDigits n → d < 10 := by
  intro n
  induction n using Nat.strong_induction_on with
  | _ n ih =>
    intro d hd
    rw [natDigits_eq] at hd
    split at hd
    · rename_i hn
      simp only [List.mem_singleton] at hd
      omega
    · rename_i hn
      rcases List.mem_append.mp hd with h | h
      · exact ih (n / 10) (by omega) d h
      · simp only [List.mem_singleton] at h
        omega

/-- Digit characters are never a path separator. -/
theorem digitChar_ne_slash : ∀ d, d < 10 → digitChar d ≠ '/' := by decide

/-- The sanitizing character map never produces a path separator. -/
theorem sanitizeChar_ne_slash (c : Char) : sanitizeChar c ≠ '/' := by
  unfold sanitizeChar
  split
  · rename_i hall
    intro hc
    rw [hc] at hall
    exact absurd hall (by decide)
  · decide

/-- Characters surviving `stripPatch` come from the input. -/
theorem mem_stripPatch (l : List Char) (c : Char) (h : c ∈ stripPatch l) : c ∈ l := by
  unfold stripPatch at h
  split at h
  · split at h
    · exact h
    · rename_i rest heq
      have h2 : c ∈ (l.drop 6).dropWhile (fun c => c ≠ ']') := by
        rw [heq]
        exact List.mem_cons_of_mem _ h
      exact List.mem_of_mem_drop ((List.dropWhile_sublist _).subset h2)
  · exact h

/-- Characters produced by the `...` collapse worker come from the input
or are periods. -/
theorem mem_collapseEllipsisAux : ∀ (fuel : Nat) (l : List Char) (c : Char),
    c ∈ collapseEllipsisAux fuel l → c ∈ l ∨ c = '.' := by
  intro fuel
  induction fuel with
  | zero =>
    intro l c hc
    exact Or.inl hc
  | succ fuel ih =>
    intro l c hc
    cases l with
    | nil => simp [collapseEllipsisAux] at hc
    | cons a rest =>
      simp only [collapseEllipsisAux] at hc
      split at hc
      · rcases List.mem_cons.mp hc with rfl | h2
        · exact Or.inr rfl
        · rcases ih (rest.drop 2) c h2 with h3 | h3
          · exact Or.inl (List.mem_cons_of_mem _ (List.mem_of_mem_drop h3))
          · exact Or.inr h3
      · rcases List.mem_cons.mp hc with rfl | h2
        · exact Or.inl (List.mem_cons_self _ _)
        · rcases ih rest c h2 with h3 | h3
          · exact Or.inl (List.mem_cons_of_mem _ h3)
          · exact Or.inr h3

/-- Characters produced by `collapseEllipsis` come from the input or are
periods. -/
theorem mem_collapseEllipsis (l : List Char) (c : Char)
    (hc : c ∈ collapseEllipsis l) : c ∈ l ∨ c = '.' :=
  mem_collapseEllipsisAux l.length l c hc

/-- Characters surviving `dropLeadHyphen` come from the input. -/
theorem mem_dropLeadHyphen (l : List Char) (c : Char) (h : c ∈ dropLeadHyphen l) :
    c ∈ l := by
  unfold dropLeadHyphen at h
  split at h
  · exact List.mem_cons_of_mem _ h
  · exact h

/-- Characters surviving `stripEdges` come from the input. -/
theorem mem_stripEdges (l : List Char) (c : Char) (h : c ∈ stripEdges l) : c ∈ l := by
  unfold stripEdges at h
  split at h
  · simp at h
  · split at h
    · rw [List.mem_reverse] at h
      have h2 := (List.dropWhile_sublist _).subset h
      rw [List.mem_reverse] at h2
      exact mem_dropLeadHyphen l c h2
    · exact mem_dropLeadHyphen l c (List.mem_of_mem_dropLast h)
    · exact mem_dropLeadHyphen l c h

/-- Characters produced by `collapseHyphensAux` come from the input or are
hyphens. -/
theorem mem_collapseHyphensAux : ∀ (l : List Char) (b : Bool) (c : Char),
    c ∈ collapseHyphensAux b l → c ∈ l ∨ c = '-' := by
  intro l
  induction l with
  | nil =>
    intro b c hc
    simp [collapseHyphensAux] at hc
  | cons c0 rest ih =>
    intro b c hc
    simp only [collapseHyphensAux] at hc
    split at hc
    · split at hc
      · rcases ih true c hc with h | h
        · exact Or.inl (List.mem_cons_of_mem _ h)
        · exact Or.inr h
      · rcases List.mem_cons.mp hc with rfl | h2
        · exact Or.inr rfl
        · rcases ih true c h2 with h | h
          · exact Or.inl (List.mem_cons_of_mem _ h)
          · exact Or.inr h
    · rcases List.mem_cons.mp hc with rfl | h2
      · exact Or.inl (List.mem_cons_self _ _)
      · rcases ih false c h2 with h | h
        · exact Or.inl (List.mem_cons_of_mem _ h)
        · exact Or.inr h

/-- No character of a sanitized subject is a path separator. -/
theorem sanitizeSubject_ne_slash (s : String) (c : Char)
    (h : c ∈ (sanitizeSubject s).data) : c ≠ '/' := by
  have h0 : c ∈ collapseHyphens (stripEdges (collapseEllipsis
      ((stripPatch s.data).map sanitizeChar))) := h
  rcases mem_collapseHyphensAux _ false c h0 with h1 | h1
  · have h2 := mem_stripEdges _ c h1
    rcases mem_collapseEllipsis _ c h2 with h3 | h3
    · obtain ⟨c0, _, rfl⟩ := List.mem_map.mp h3
      exact sanitizeChar_ne_slash c0
    · rw [h3]; decide
  · rw [h1]; decide

/-- The decomposition of a generated raw name into its character list. -/
theorem data_mkRawName (w n : Nat) (s : String) :
    (mkRawName w n s).data =
      List.replicate (w - (natDigits n).length) '0' ++ (natDigits n).map digitChar ++
        ('-' :: (s.data ++ ['.', 'p', 'a', 't', 'c', 'h'])) := by
  have h1 : ("-" : String).data = ['-'] := rfl
  have h2 : (".patch" : String).data = ['.', 'p', 'a', 't', 'c', 'h'] := rfl
  simp [mkRawName, zeroPad, natDecimal, data_append, data_asString, h1, h2,
    String.length, List.length_map, List.append_assoc]

/-- No character of a raw generated name is a path separator. -/
theorem mem_mkRawName_ne_slash (w n : Nat) (s : String) (c : Char)
    (hc : c ∈ (mkRawName w n (sanitizeSubject s)).data) : c ≠ '/' := by
  rw [data_mkRawName] at hc
  rcases List.mem_append.mp hc with h | h
  · rcases List.mem_append.mp h with h1 | h1
    · rw [List.eq_of_mem_replicate h1]; decide
    · obtain ⟨d, hd, rfl⟩ := List.mem_map.mp h1
      exact digitChar_ne_slash d (natDigits_lt_ten n d hd)
  · rcases List.mem_cons.mp h with rfl | h1
    · decide
    · rcases List.mem_append.mp h1 with h2 | h2
      · exact sanitizeSubject_ne_slash s c h2
      · simp only [List.mem_cons, List.not_mem_nil, or_false] at h2
        rcases h2 with rfl | rfl | rfl | rfl | rfl | rfl <;> decide

/-- A raw generated name always has at least the numeric prefix, the
hyphen and the `.patch` suffix. -/
theorem mkRawName_length_pos (w n : Nat) (s : String) :
    7 ≤ (mkRawName w n s).length := by
  show 7 ≤ (mkRawName w n s).data.length
  rw [data_mkRawName]
  simp only [List.length_append, List.length_cons, List.length_replicate,
    List.length_map]
  have h3 : 1 ≤ (natDigits n).length := by
    rw [natDigits_eq]
    split <;> simp
  omega

/-- C6 (amended).  For every subject, offset, digit width, and maximum
component length at least 6, the generated file name contains no path
separator, is non-empty, and fits within the maximum; whenever the raw
name overflows, the result ends in `.patch` and has length exactly the
maximum.  (For a maximum below 6 the Python slice `name[:pc_name_max - 6]`
has a negative bound and the guarantee fails.) -/
theorem c6_truncation_safety (subject : String) (offsetV w pcMax : Nat) (h6 : 6 ≤ pcMax) :
    (∀ c ∈ (formatName w offsetV subject pcMax).data, c ≠ '/') ∧
    formatName w offsetV subject pcMax ≠ "" ∧
    (formatName w offsetV subject pcMax).length ≤ pcMax ∧
    (pcMax < (mkRawName w offsetV (sanitizeSubject subject)).length →
      (∃ t, formatName w offsetV subject pcMax = t ++ ".patch") ∧
      (formatName w offsetV subject pcMax).length = pcMax) := by
  by_cases hover : pcMax < (mkRawName w offsetV (sanitizeSubject subject)).length
  · have hform : formatName w offsetV subject pcMax =
        pySliceTo (mkRawName w offsetV (sanitizeSubject subject)) ((pcMax : Int) - 6) ++
          ".patch" := by
      simp only [formatName]
      rw [if_pos hover]
    have hj : (0 : Int) ≤ (pcMax : Int) - 6 := by omega
    have hslice : pySliceTo (mkRawName w offsetV (sanitizeSubject subject))
        ((pcMax : Int) - 6) =
        ((mkRawName w offsetV (sanitizeSubject subject)).data.take
          (pcMax - 6)).asString := by
      simp only [pySliceTo, if_pos hj]
      have : ((pcMax : Int) - 6).toNat = pcMax - 6 := by omega
      rw [this]
    have hlen : (formatName w offsetV subject pcMax).length = pcMax := by
      rw [hform, length_append_str, hslice]
      have hp6 : (".patch" : String).length = 6 := rfl
      have htake : (((mkRawName w offsetV (sanitizeSubject subject)).data.take
          (pcMax - 6)).asString).length =
          min (pcMax - 6) (mkRawName w offsetV (sanitizeSubject subject)).data.length :=
        List.length_take _ _
      rw [hp6, htake]
      have hNlen : pcMax < (mkRawName w offsetV (sanitizeSubject subject)).data.length :=
        hover
      omega
    refine ⟨?_, ?_, le_of_eq hlen, fun _ => ⟨⟨_, hform⟩, hlen⟩⟩
    · intro c hc
      rw [hform, data_append] at hc
      rcases List.mem_append.mp hc with h | h
      · rw [hslice, data_asString] at h
        exact mem_mkRawName_ne_slash w offsetV subject c (List.mem_of_mem_take h)
      · simp only [List.mem_cons, List.not_mem_nil, or_false,
          show (".patch" : String).data = ['.', 'p', 'a', 't', 'c', 'h'] from rfl] at h
        rcases h with rfl | rfl | rfl | rfl | rfl | rfl <;> decide
    · intro heq
      rw [heq] at hlen
      simp [String.length] at hlen
      omega
  · have hform : formatName w offsetV subject pcMax =
        mkRawName w offsetV (sanitizeSubject subject) := by
      simp only [formatName]
      rw [if_neg hover]
    refine ⟨?_, ?_, ?_, fun hc => absurd hc hover⟩
    · intro c hc
      rw [hform] at hc
      exact mem_mkRawName_ne_slash w offsetV subject c hc
    · intro heq
      have h7 := mkRawName_length_pos w offsetV (sanitizeSubject subject)
      rw [← hform, heq] at h7
      simp [String.length] at h7
    · rw [hform]
      omega

/-- C6 witness: a 40-character subject at maximum length 20 is truncated to
exactly 20 characters ending in `.patch`. -/
theorem c6_witness :
    (6 : Nat) ≤ 20 ∧
    ((∀ c ∈ (formatName 4 1 "this-subject-is-much-too-long-for-the-limit" 20).data,
        c ≠ '/') ∧
      formatName 4 1 "this-subject-is-much-too-long-for-the-limit" 20 ≠ "" ∧
      (formatName 4 1 "this-subject-is-much-too-long-for-the-limit" 20).length ≤ 20 ∧
      (20 < (mkRawName 4 1
          (sanitizeSubject "this-subject-is-much-too-long-for-the-limit")).length →
        (∃ t, formatName 4 1 "this-subject-is-much-too-long-for-the-limit" 20 =
            t ++ ".patch") ∧
        (formatName 4 1 "this-subject-is-much-too-long-for-the-limit" 20).length = 20)) :=
  ⟨by decide, c6_truncation_safety "this-subject-is-much-too-long-for-the-limit" 1 4 20
    (by decide)⟩

/-- C6 counterexample: with maximum component length 5 (below the 6 bytes
of `.patch`) the truncation slice has a negative bound and the produced
name is longer than the maximum, so the claimed bound fails for that
maximum. -/
theorem c6_counterexample :
    ¬ ((formatName 4 1 "x" 5).length ≤ 5) := by decide

/-! ### Theorems: the ordering invariant of zero-padded names -/

/-- The fixed-width digit vector has exactly the requested width. -/
theorem padDig_length : ∀ (w n : Nat), (padDig w n).length = w := by
  intro w
  induction w with
  | zero => intro n; rfl
  | succ w ih => intro n; simp [padDig, ih]

/-- Digit characters are ordered like the digits they render. -/
theorem digitChar_lt : ∀ b, b < 10 → ∀ a, a < b → digitChar a < digitChar b := by decide

/-- Zero-padded digit vectors of equal width compare lexicographically like
the numbers they denote, whatever follows them. -/
theorem lex_padDig : ∀ (w i j : Nat) (r1 r2 : List Char), i < j → j < 10 ^ w →
    List.Lex (· < ·) ((padDig w i).map digitChar ++ r1)
      ((padDig w j).map digitChar ++ r2) := by
  intro w
  induction w with
  | zero =>
    intro i j r1 r2 hij hj
    rw [pow_zero] at hj
    omega
  | succ w ih =>
    intro i j r1 r2 hij hj
    have hp : 0 < 10 ^ w := Nat.pos_pow_of_pos w (by norm_num)
    have hpow : 10 ^ (w + 1) = 10 ^ w * 10 := pow_succ 10 w
    have hdivle : i / 10 ^ w ≤ j / 10 ^ w := Nat.div_le_div_right (Nat.le_of_lt hij)
    have hjdiv : j / 10 ^ w < 10 := by
      rw [Nat.div_lt_iff_lt_mul hp]
      omega
    simp only [padDig, List.map_cons, List.cons_append]
    rcases Nat.lt_or_ge (i / 10 ^ w) (j / 10 ^ w) with hlt | hge
    · exact List.Lex.rel (digitChar_lt (j / 10 ^ w) hjdiv (i / 10 ^ w) hlt)
    · have heq : i / 10 ^ w = j / 10 ^ w := Nat.le_antisymm hdivle hge
      rw [heq]
      apply List.Lex.cons
      have hi := Nat.div_add_mod i (10 ^ w)
      rw [heq] at hi
      have hj2 := Nat.div_add_mod j (10 ^ w)
      have hmod : i % 10 ^ w < j % 10 ^ w := by omega
      exact ih (i % 10 ^ w) (j % 10 ^ w) r1 r2 hmod (Nat.mod_lt _ hp)

/-- Peeling the least significant digit off a fixed-width vector. -/
theorem padDig_succ : ∀ (w n : Nat), n < 10 ^ (w + 1) →
    padDig (w + 1) n = padDig w (n / 10) ++ [n % 10] := by
  intro w
  induction w with
  | zero =>
    intro n hn
    rw [pow_one] at hn
    simp [padDig, pow_zero, Nat.div_one, Nat.mod_eq_of_lt hn]
  | succ w ih =>
    intro n hn
    have hmodlt : n % 10 ^ (w + 1) < 10 ^ (w + 1) :=
      Nat.mod_lt _ (Nat.pos_pow_of_pos _ (by norm_num))
    have hih := ih (n % 10 ^ (w + 1)) hmodlt
    have h1 : n % 10 ^ (w + 1) % 10 = n % 10 :=
      Nat.mod_mod_of_dvd n (dvd_pow_self 10 (Nat.succ_ne_zero w))
    have h2 : n % 10 ^ (w + 1) / 10 = n / 10 % 10 ^ w := by
      rw [pow_succ']
      exact Nat.mod_mul_right_div_self n 10 (10 ^ w)
    have h3 : n / 10 ^ (w + 1) = n / 10 / 10 ^ w := by
      rw [pow_succ']
      rw [Nat.div_div_eq_div_mul]
    rw [show padDig (w + 1 + 1) n =
      n / 10 ^ (w + 1) :: padDig (w + 1) (n % 10 ^ (w + 1)) from rfl]
    rw [show padDig (w + 1) (n / 10) =
      n / 10 / 10 ^ w :: padDig w (n / 10 % 10 ^ w) from rfl]
    rw [hih, h1, h2, h3]
    simp

/-- Above `10 ^ w` and below `10 ^ (w + 1)`, the digit list is exactly the
width-`w + 1` vector. -/
theorem natDigits_eq_padDig : ∀ (w n : Nat), 10 ^ w ≤ n → n < 10 ^ (w + 1) →
    natDigits n = padDig (w + 1) n := by
  intro w
  induction w with
  | zero =>
    intro n h1 h2
    rw [pow_one] at h2
    rw [natDigits_eq, if_pos h2]
    simp [padDig, pow_zero, Nat.div_one]
  | succ w ih =>
    intro n h1 h2
    have h10 : 10 ≤ n := by
      calc (10 : Nat) = 10 ^ 1 := (pow_one 10).symm
        _ ≤ 10 ^ (w + 1) := Nat.pow_le_pow_right (by norm_num) (by omega)
        _ ≤ n := h1
    rw [natDigits_eq, if_neg (by omega)]
    have hd1 : 10 ^ w ≤ n / 10 := by
      rw [Nat.le_div_iff_mul_le (by norm_num)]
      calc 10 ^ w * 10 = 10 ^ (w + 1) := (pow_succ 10 w).symm
        _ ≤ n := h1
    have hd2 : n / 10 < 10 ^ (w + 1) := by
      rw [Nat.div_lt_iff_lt_mul (by norm_num)]
      calc n < 10 ^ (w + 1 + 1) := h2
        _ = 10 ^ (w + 1) * 10 := pow_succ 10 (w + 1)
    rw [ih (n / 10) hd1 hd2]
    exact (padDig_succ (w + 1) n h2).symm

/-- Below `10 ^ w` (for positive width) the digit list has at most `w`
digits. -/
theorem natDigits_length_le : ∀ (w : Nat), 1 ≤ w → ∀ n, n < 10 ^ w →
    (natDigits n).length ≤ w := by
  intro w
  induction w with
  | zero => intro h; omega
  | succ w ih =>
    intro _ n hn
    by_cases h10 : n < 10
    · rw [natDigits_eq, if_pos h10]
      simp
    · have hw : 1 ≤ w := by
        by_contra hw0
        have hw1 : w = 0 := by omega
        subst hw1
        rw [pow_one] at hn
        omega
      rw [natDigits_eq, if_neg h10, List.length_append]
      have hd : n / 10 < 10 ^ w := by
        rw [Nat.div_lt_iff_lt_mul (by norm_num)]
        calc n < 10 ^ (w + 1) := hn
          _ = 10 ^ w * 10 := pow_succ 10 w
      have hle := ih hw (n / 10) hd
      simp only [List.length_cons, List.length_nil]
      omega

/-- At or above `10 ^ w` the digit list has more than `w` digits. -/
theorem natDigits_length_ge : ∀ (w n : Nat), 10 ^ w ≤ n →
    w + 1 ≤ (natDigits n).length := by
  intro w
  induction w with
  | zero =>
    intro n _
    rw [natDigits_eq]
    split <;> simp
  | succ w ih =>
    intro n h1
    have h10 : 10 ≤ n := by
      calc (10 : Nat) = 10 ^ 1 := (pow_one 10).symm
        _ ≤ 10 ^ (w + 1) := Nat.pow_le_pow_right (by norm_num) (by omega)
        _ ≤ n := h1
    rw [natDigits_eq, if_neg (by omega), List.length_append]
    have hd1 : 10 ^ w ≤ n / 10 := by
      rw [Nat.le_div_iff_mul_le (by norm_num)]
      calc 10 ^ w * 10 = 10 ^ (w + 1) := (pow_succ 10 w).symm
        _ ≤ n := h1
    have hge := ih (n / 10) hd1
    simp only [List.length_cons, List.length_nil]
    omega

/-- Zero-padding the decimal digits to width `w` yields exactly the
fixed-width digit vector. -/
theorem zeroPad_digits : ∀ (w : Nat), 1 ≤ w → ∀ n, n < 10 ^ w →
    List.replicate (w - (natDigits n).length) '0' ++ (natDigits n).map digitChar =
      (padDig w n).map digitChar := by
  intro w
  induction w with
  | zero => intro h; omega
  | succ w ih =>
    intro _ n hn
    by_cases hlow : n < 10 ^ w
    · by_cases hw : 1 ≤ w
      · have hdiv : n / 10 ^ w = 0 := Nat.div_eq_of_lt hlow
        have hmod : n % 10 ^ w = n := Nat.mod_eq_of_lt hlow
        have hlen := natDigits_length_le w hw n hlow
        have hsub : w + 1 - (natDigits n).length = (w - (natDigits n).length) + 1 := by
          omega
        rw [hsub, List.replicate_succ, List.cons_append]
        rw [show padDig (w + 1) n = n / 10 ^ w :: padDig w (n % 10 ^ w) from rfl]
        rw [hdiv, hmod, List.map_cons, ih hw n hlow]
        rw [show digitChar 0 = '0' from by decide]
      · have hw0 : w = 0 := by omega
        subst hw0
        have hn0 : n = 0 := by
          rw [pow_zero] at hlow
          omega
        subst hn0
        decide
    · have hge : 10 ^ w ≤ n := by omega
      have heqd := natDigits_eq_padDig w n hge hn
      have hlen : (natDigits n).length = w + 1 := by
        rw [heqd, padDig_length]
      rw [hlen, Nat.sub_self, List.replicate_zero, List.nil_append, heqd]

/-- Lexicographic strict order on strings from `List.Lex` on the character
data. -/
theorem string_lt_of_lex (a b : String) (h : List.Lex (· < ·) a.data b.data) :
    a < b := by
  rw [String.lt_iff_toList_lt]
  exact h

/-- C9.  The configured digit width is the decimal length of
`max(patchnum, 1000)` and hence never below 4; and for offsets
`1 ≤ i < j ≤ 10 ^ w - 1` the generated names compare lexicographically in
offset order, whatever the sanitized subjects are. -/
theorem c9_ordering_invariant :
    (∀ patchnum, 4 ≤ configDigit patchnum) ∧
    (∀ (w i j : Nat) (s1 s2 : String), 1 ≤ i → i < j → j ≤ 10 ^ w - 1 →
      mkRawName w i s1 < mkRawName w j s2) := by
  constructor
  · intro p
    have h3 : 10 ^ 3 ≤ (if p < 1000 then 1000 else p) := by
      split <;> norm_num
      omega
    have hge := natDigits_length_ge 3 _ h3
    unfold configDigit natDecimal
    have hl : ((natDigits (if p < 1000 then 1000 else p)).map digitChar).asString.length =
        (natDigits (if p < 1000 then 1000 else p)).length := by
      show (List.map _ _).length = _
      exact List.length_map _ _
    rw [hl]
    omega
  · intro w i j s1 s2 hi hij hj
    have hp : 0 < 10 ^ w := Nat.pos_pow_of_pos w (by norm_num)
    have hjw : j < 10 ^ w := by omega
    have hiw : i < 10 ^ w := by omega
    have hw1 : 1 ≤ w := by
      by_contra hw0
      have hw00 : w = 0 := by omega
      subst hw00
      rw [pow_zero] at hjw
      omega
    apply string_lt_of_lex
    rw [data_mkRawName, data_mkRawName,
      zeroPad_digits w hw1 i hiw, zeroPad_digits w hw1 j hjw]
    exact lex_padDig w i j _ _ hij hjw

/-- C9 witness: width 4, offsets 1 and 2, with subjects chosen so that the
subject order opposes the offset order. -/
theorem c9_witness :
    ((1 : Nat) ≤ 1 ∧ (1 : Nat) < 2 ∧ (2 : Nat) ≤ 10 ^ 4 - 1) ∧
    mkRawName 4 1 "zzz" < mkRawName 4 2 "aaa" :=
  ⟨⟨by decide, by decide, by norm_num⟩,
   c9_ordering_invariant.2 4 1 2 "zzz" "aaa" (by decide) (by decide) (by norm_num)⟩

end GitDumpCommit
